import Mathlib

/-!
Verification of the C-code symbol extractor
(`src/my_module/code_processing/c_processor.py`, class `CCodeParser`).

The parser scans one C source buffer with six regular expressions
(five declaration shapes plus a function-boundary shape) and keeps the
matches whose start offset lies outside every heuristically detected
function span.  The embedding below models the buffer as a `List Char`
and each compiled pattern as a dedicated matcher that follows Python's
leftmost, priority-ordered, greedy backtracking semantics for that
pattern.  Where a greedy sub-pattern is followed by a token disjoint
from its character class, maximal munch is the unique behaviour and the
matcher commits; the only places where backtracking can change the
outcome — the optional `far` group, the `\s*` before a value that may
itself start with whitespace, the `\s+` before a macro body, the value
alternation, and the `(\w+\s+)*` star of the function shape — are
modelled with explicit fallback.  Character classes are modelled at
ASCII (the inputs of interest are ASCII C source).
-/

namespace CProc

/-- ASCII model of the regex class `\w`. -/
def isWordChar (c : Char) : Bool := c.isAlpha || c.isDigit || c == '_'

/-- ASCII model of the regex class `\s`. -/
def isSpaceChar (c : Char) : Bool :=
  c == ' ' || c == '\t' || c == '\n' || c == '\r' || c == '\x0b' || c == '\x0c'

/-- The regex class `\d`. -/
def isDigitChar (c : Char) : Bool := c.isDigit

/-- `^` under `re.MULTILINE`: start of the buffer or right after a newline. -/
def isBol (content : List Char) (pos : Nat) : Bool :=
  pos == 0 || content[pos - 1]? == some '\n'

/-- Match a literal piece of a pattern at the front of `l`. -/
def expects : List Char → List Char → Option (List Char)
  | [], l => some l
  | p :: ps, c :: cs => if c = p then expects ps cs else none
  | _ :: _, [] => none

/-! ### The global-variable pattern
`^\s*(far\s+)?(\w+)\s+(\w+)(\[\d+\])?\s*=\s*(\{[^}]+\}|[^;]+);` (MULTILINE),
from `_extract_global_variables`. -/

structure GvCaps where
  far : Bool
  ty : List Char
  nm : List Char
  arr : Option (List Char)
  value : List Char

/-- Second alternative `[^;]+` of the initializer, then the literal `;`. -/
def gvAlt2 (l : List Char) : Option (List Char × List Char) :=
  let v := l.takeWhile (fun c => c ≠ ';')
  match l.dropWhile (fun c => c ≠ ';') with
  | ';' :: rest => if v.isEmpty then none else some (v, rest)
  | _ => none

/-- `(\{[^}]+\}|[^;]+);`: the brace alternative has priority; when it (or the
following `;`) fails the engine retries with `[^;]+` from the same spot. -/
def gvValueSemi (l : List Char) : Option (List Char × List Char) :=
  match l with
  | '\x7b' :: r =>
    let inner := r.takeWhile (fun c => c ≠ '\x7d')
    match r.dropWhile (fun c => c ≠ '\x7d') with
    | '\x7d' :: ';' :: rest =>
      if inner.isEmpty then gvAlt2 l else some ('\x7b' :: (inner ++ ['\x7d']), rest)
    | _ => gvAlt2 l
  | _ => gvAlt2 l

/-- The `\s*` before the initializer, greedy with backtracking: the
initializer's `[^;]+` may itself consume whitespace, so on failure the
engine gives whitespace back one character at a time. -/
def gvTryValue (l : List Char) : Nat → Option (List Char × List Char)
  | 0 => gvValueSemi l
  | k + 1 =>
    match gvValueSemi (l.drop (k + 1)) with
    | some r => some r
    | none => gvTryValue l k

/-- The optional `(\[\d+\])?` suffix.  When the bracket parses, the
no-bracket alternative would face `[` where `\s*=` is required and fail,
so committing matches the regex's backtracking. -/
def gvArr (l : List Char) : Option (List Char) × List Char :=
  match l with
  | '[' :: r =>
    let ds := r.takeWhile isDigitChar
    match r.dropWhile isDigitChar with
    | ']' :: rest => if ds.isEmpty then (none, l) else (some ('[' :: (ds ++ [']'])), rest)
    | _ => (none, l)
  | _ => (none, l)

/-- `(\w+)\s+(\w+)(\[\d+\])?\s*=\s*(\{[^}]+\}|[^;]+);` — everything after
the optional `far` group.  Each `\w+`/`\s+` is followed by a token from a
disjoint class, so maximal munch is exact. -/
def gvTail (farQ : Bool) (l : List Char) : Option (GvCaps × List Char) :=
  let ty := l.takeWhile isWordChar
  if ty.isEmpty then none else
  let l1 := l.dropWhile isWordChar
  let sp := l1.takeWhile isSpaceChar
  if sp.isEmpty then none else
  let l2 := l1.dropWhile isSpaceChar
  let nm := l2.takeWhile isWordChar
  if nm.isEmpty then none else
  let l3 := l2.dropWhile isWordChar
  let ar := gvArr l3
  let l5 := ar.2.dropWhile isSpaceChar
  match l5 with
  | '=' :: l6 =>
    match gvTryValue l6 (l6.takeWhile isSpaceChar).length with
    | some (v, rest) => some (⟨farQ, ty, nm, ar.1, v⟩, rest)
    | none => none
  | _ => none

/-- The optional `(far\s+)?` group: literal `far` then `\s+`. -/
def gvFar (l : List Char) : Option (List Char) :=
  match l with
  | 'f' :: 'a' :: 'r' :: r =>
    if (r.takeWhile isSpaceChar).isEmpty then none else some (r.dropWhile isSpaceChar)
  | _ => none

/-- The whole global-variable pattern tried at offset `pos`; returns the
match end and the captures.  The leading `^\s*` is maximal (both
continuations start with `\w`). -/
def gvMatchAt (content : List Char) (pos : Nat) : Option (Nat × GvCaps) :=
  if isBol content pos then
    let l := (content.drop pos).dropWhile isSpaceChar
    let res :=
      match gvFar l with
      | some l1 =>
        match gvTail true l1 with
        | some r => some r
        | none => gvTail false l
      | none => gvTail false l
    match res with
    | some (caps, rest) => some (pos + ((content.drop pos).length - rest.length), caps)
    | none => none
  else none

/-! ### The extern pattern
`^extern\s+(\w+)\s+(\w+);` (MULTILINE), from `_extract_extern_variables`.
No alternation and every greedy piece is followed by a disjoint token, so
the matcher is a committed left-to-right scan. -/

def exMatchAt (content : List Char) (pos : Nat) : Option (Nat × (List Char × List Char)) :=
  if isBol content pos then
    let l := content.drop pos
    match expects ("extern").data l with
    | some l1 =>
      if (l1.takeWhile isSpaceChar).isEmpty then none else
      let l2 := l1.dropWhile isSpaceChar
      let ty := l2.takeWhile isWordChar
      if ty.isEmpty then none else
      let l3 := l2.dropWhile isWordChar
      if (l3.takeWhile isSpaceChar).isEmpty then none else
      let l4 := l3.dropWhile isSpaceChar
      let nm := l4.takeWhile isWordChar
      if nm.isEmpty then none else
      match l4.dropWhile isWordChar with
      | ';' :: rest => some (pos + (l.length - rest.length), (ty, nm))
      | _ => none
    | none => none
  else none

/-! ### The macro pattern
`^#define\s+(\w+)\s+(.+)` (MULTILINE), from `_extract_macros`. -/

/-- The `\s+(.+)` tail: `\s+` is greedy but `.` (any char but newline) also
matches blanks, so on failure the engine gives whitespace back down to one
character.  `(.+)` itself is maximal (nothing follows it). -/
def macroTryValue (l : List Char) : Nat → Option (List Char × List Char)
  | 0 => none
  | k + 1 =>
    let v := (l.drop (k + 1)).takeWhile (fun c => c ≠ '\n')
    if v.isEmpty then macroTryValue l k
    else some (v, (l.drop (k + 1)).dropWhile (fun c => c ≠ '\n'))

def macroMatchAt (content : List Char) (pos : Nat) : Option (Nat × (List Char × List Char)) :=
  if isBol content pos then
    let l := content.drop pos
    match expects ("#define").data l with
    | some l1 =>
      if (l1.takeWhile isSpaceChar).isEmpty then none else
      let l2 := l1.dropWhile isSpaceChar
      let nm := l2.takeWhile isWordChar
      if nm.isEmpty then none else
      let l3 := l2.dropWhile isWordChar
      match macroTryValue l3 (l3.takeWhile isSpaceChar).length with
      | some (v, rest) => some (pos + (l.length - rest.length), (nm, v))
      | none => none
    | none => none
  else none

/-! ### The struct pattern
`typedef\s+struct\s*\{([^}]*)\}\s*(\w+);` (no anchors), from
`_extract_structs`.  Every greedy piece is followed by a disjoint literal,
so the matcher commits throughout. -/

def structMatchAt (content : List Char) (pos : Nat) :
    Option (Nat × (List Char × List Char)) :=
  let l := content.drop pos
  match expects ("typedef").data l with
  | some l1 =>
    if (l1.takeWhile isSpaceChar).isEmpty then none else
    let l2 := l1.dropWhile isSpaceChar
    match expects ("struct").data l2 with
    | some l3 =>
      match l3.dropWhile isSpaceChar with
      | '\x7b' :: l4 =>
        let fields := l4.takeWhile (fun c => c ≠ '\x7d')
        match l4.dropWhile (fun c => c ≠ '\x7d') with
        | '\x7d' :: l5 =>
          let l6 := l5.dropWhile isSpaceChar
          let nm := l6.takeWhile isWordChar
          if nm.isEmpty then none else
          match l6.dropWhile isWordChar with
          | ';' :: rest => some (pos + (l.length - rest.length), (fields, nm))
          | _ => none
        | _ => none
      | _ => none
    | none => none
  | none => none

/-! ### The struct-instance pattern
`^\s*(\w+)\s+(\w+)\s*=\s*(\{[^}]+\});` (MULTILINE), from
`_extract_struct_instances`.  The initializer alternative starts with the
literal `{`, disjoint from `\s`, so even the `\s*` before it commits. -/

def siMatchAt (content : List Char) (pos : Nat) :
    Option (Nat × (List Char × List Char × List Char)) :=
  if isBol content pos then
    let l := (content.drop pos).dropWhile isSpaceChar
    let ty := l.takeWhile isWordChar
    if ty.isEmpty then none else
    let l1 := l.dropWhile isWordChar
    if (l1.takeWhile isSpaceChar).isEmpty then none else
    let l2 := l1.dropWhile isSpaceChar
    let nm := l2.takeWhile isWordChar
    if nm.isEmpty then none else
    let l3 := (l2.dropWhile isWordChar).dropWhile isSpaceChar
    match l3 with
    | '=' :: l4 =>
      match l4.dropWhile isSpaceChar with
      | '\x7b' :: l5 =>
        let inner := l5.takeWhile (fun c => c ≠ '\x7d')
        if inner.isEmpty then none else
        match l5.dropWhile (fun c => c ≠ '\x7d') with
        | '\x7d' :: ';' :: rest =>
          some (pos + ((content.drop pos).length - rest.length),
            (ty, nm, '\x7b' :: (inner ++ ['\x7d'])))
        | _ => none
      | _ => none
    | _ => none
  else none

/-! ### The function-boundary pattern
`(\w+\s+)*\w+\s*\([^)]*\)\s*\{` (no anchors), from `_is_global_scope`. -/

/-- Greedy parse of `(\w+\s+)*`: the consumed length and, when at least one
unit matched, the start offset of the last unit.  Fuel keeps the recursion
structural; every iteration consumes at least two characters, so fuel
`l.length` never runs out (`funcUnitsB_fuel`). -/
def funcUnitsB : Nat → List Char → Nat × Option Nat
  | 0, _ => (0, none)
  | fuel + 1, l =>
    let w := l.takeWhile isWordChar
    if w.isEmpty then (0, none)
    else
      let r := l.dropWhile isWordChar
      let s := r.takeWhile isSpaceChar
      if s.isEmpty then (0, none)
      else
        let k := w.length + s.length
        let p := funcUnitsB fuel (r.dropWhile isSpaceChar)
        (k + p.1, some (match p.2 with | none => 0 | some j => k + j))

def funcUnits (l : List Char) : Nat × Option Nat := funcUnitsB l.length l

/-- `\([^)]*\)\s*\{` from the position right after the `(`; returns the
match end.  `[^)]*` is maximal (the next token is the literal `)`), as is
the `\s*` before `{`. -/
def funcParen (lLen pos : Nat) (r : List Char) : Option Nat :=
  match r.dropWhile (fun c => c ≠ ')') with
  | ')' :: r2 =>
    match r2.dropWhile isSpaceChar with
    | '\x7b' :: r3 => some (pos + (lLen - r3.length))
    | _ => none
  | _ => none

/-- The whole function-boundary pattern at `pos`.  After the maximal star
either a word stands at the current position (then `\w+\s*\(` must follow;
deeper backtracking into the star puts the `(` test on a word character and
always fails), or the star gives back exactly its last unit, re-reading it
as `\w+\s*`, which lands the `(` test back on the current position. -/
def funcMatchAt (content : List Char) (pos : Nat) : Option (Nat × Unit) :=
  let l := content.drop pos
  let u := funcUnits l
  let r := l.drop u.1
  let e :=
    if (r.takeWhile isWordChar).isEmpty then
      match u.2 with
      | some _ =>
        match r with
        | '(' :: r1 => funcParen l.length pos r1
        | _ => none
      | none => none
    else
      match (r.dropWhile isWordChar).dropWhile isSpaceChar with
      | '(' :: r1 => funcParen l.length pos r1
      | _ => none
  e.map (fun x => (x, ()))

/-! ### `re.finditer` and `str.find` -/

/-- One pass of `re.finditer`: candidate start positions are scanned left to
right; positions inside the previous match are skipped, and a match at `p`
ending at `e` moves the scan to `e` (to `p + 1` were a match empty). -/
def finditerGo (matchAt : Nat → Option (Nat × α)) : List Nat → Nat → List (Nat × Nat × α)
  | [], _ => []
  | p :: ps, minPos =>
    if p < minPos then finditerGo matchAt ps minPos
    else
      match matchAt p with
      | some (e, a) => (p, e, a) :: finditerGo matchAt ps (if e ≤ p then p + 1 else e)
      | none => finditerGo matchAt ps minPos

def finditer (matchAt : Nat → Option (Nat × α)) (len : Nat) : List (Nat × Nat × α) :=
  finditerGo matchAt (List.range (len + 1)) 0

/-- `content.find('\n}', start)`: the index of the first occurrence of the
two-character sequence at or after `start` (`none` for Python's `-1`). -/
def find2From : List Char → Nat → Option Nat
  | [], _ => none
  | c :: rest, i =>
    if c = '\n' ∧ rest.head? = some '\x7d' then some i else find2From rest (i + 1)

def find2 (content : List Char) (start : Nat) : Option Nat :=
  find2From (content.drop start) start

/-! ### Function spans and the scope classifier (`_is_global_scope`) -/

/-- The heuristic end of the function span opened at `s`:
`content.find('\n}', s)`, or the document length when there is none. -/
def spanEnd (content : List Char) (s : Nat) : Nat :=
  match find2 content s with
  | some i => i
  | none => content.length

def funcMatches (content : List Char) : List (Nat × Nat × Unit) :=
  finditer (funcMatchAt content) content.length

/-- The `[start, end)` spans of every function-like match.  The source
recomputes this list inside `_is_global_scope` for every candidate; the
computation is pure, so it is shared here. -/
def functionSpans (content : List Char) : List (Nat × Nat) :=
  (funcMatches content).map (fun m => (m.1, spanEnd content m.1))

/-- `_is_global_scope`: `False` as soon as one span has
`func_start < o < func_end`, else `True`. -/
def is_global_scope (content : List Char) (o : Nat) : Bool :=
  (functionSpans content).all (fun sp => !(decide (sp.1 < o) && decide (o < sp.2)))

/-! ### String post-processing (`str.strip`, the two `re.sub` comment strips) -/

/-- Python `str.strip()` (ASCII whitespace model). -/
def pyStrip (l : List Char) : List Char :=
  ((l.dropWhile isSpaceChar).reverse.dropWhile isSpaceChar).reverse

/-- `re.sub(r'//.*$', '', value)` on a newline-free `value`: cut from the
first `//` to the end. -/
def stripToEnd : List Char → List Char
  | [] => []
  | c :: r => if c = '/' ∧ r.head? = some '/' then [] else c :: stripToEnd r

/-- `re.sub(r'//.*', '', field)`: erase every `//`-to-end-of-line segment
(`.` does not cross newlines; the newline itself stays). -/
def stripCommentsGo : List Char → Bool → List Char
  | [], _ => []
  | c :: rest, true =>
    if c = '\n' then c :: stripCommentsGo rest false else stripCommentsGo rest true
  | '/' :: '/' :: rest, false => stripCommentsGo rest true
  | c :: rest, false => c :: stripCommentsGo rest false

def stripLineComments (l : List Char) : List Char := stripCommentsGo l false

/-! ### The records and the symbol table -/

/-- The JSON values the parser assembles (object fields keep insertion
order, as Python dicts do). -/
inductive Json where
  | str : String → Json
  | arr : List Json → Json
  | obj : List (String × Json) → Json

/-- `{"name": name, "type": var_type, "value": value.strip()}` with the
`far ` prefix and the array suffix applied first. -/
def gvRecord (c : GvCaps) : List (String × Json) :=
  let ty := if c.far then ("far ").data ++ c.ty else c.ty
  let nm := match c.arr with | some a => c.nm ++ a | none => c.nm
  [("name", Json.str nm.asString), ("type", Json.str ty.asString),
   ("value", Json.str (pyStrip c.value).asString)]

def gvMatches (content : List Char) : List (Nat × Nat × GvCaps) :=
  finditer (gvMatchAt content) content.length

/-- `_extract_global_variables`, with each record paired with its match's
start offset. -/
def globalVarsOff (content : List Char) : List (Nat × List (String × Json)) :=
  (gvMatches content).filterMap fun m =>
    if is_global_scope content m.1 then some (m.1, gvRecord m.2.2) else none

def extract_global_variables (content : List Char) : List (List (String × Json)) :=
  (globalVarsOff content).map (·.2)

def exMatches (content : List Char) : List (Nat × Nat × (List Char × List Char)) :=
  finditer (exMatchAt content) content.length

/-- `_extract_extern_variables`, offsets kept. -/
def externVarsOff (content : List Char) : List (Nat × List (String × Json)) :=
  (exMatches content).filterMap fun m =>
    if is_global_scope content m.1 then
      some (m.1, [("name", Json.str m.2.2.2.asString), ("type", Json.str m.2.2.1.asString)])
    else none

def extract_extern_variables (content : List Char) : List (List (String × Json)) :=
  (externVarsOff content).map (·.2)

def macroMatches (content : List Char) : List (Nat × Nat × (List Char × List Char)) :=
  finditer (macroMatchAt content) content.length

/-- `_extract_macros`, offsets kept: the raw value has its `//` comment cut
and is stripped. -/
def macrosOff (content : List Char) : List (Nat × List (String × Json)) :=
  (macroMatches content).filterMap fun m =>
    if is_global_scope content m.1 then
      some (m.1, [("name", Json.str m.2.2.1.asString),
        ("value", Json.str (pyStrip (stripToEnd m.2.2.2)).asString)])
    else none

def extract_macros (content : List Char) : List (List (String × Json)) :=
  (macrosOff content).map (·.2)

/-- The per-match field-block processing of `_extract_structs`: split on
`;`, strip, keep non-empty pieces, then cut `//` comments and strip again. -/
def structFieldList (fields : List Char) : List (List Char) :=
  (fields.splitOn ';').foldl
    (fun acc f =>
      let f1 := pyStrip f
      if f1.isEmpty then acc else acc ++ [pyStrip (stripLineComments f1)])
    []

def structMatches (content : List Char) : List (Nat × Nat × (List Char × List Char)) :=
  finditer (structMatchAt content) content.length

/-- `_extract_structs`, offsets kept. -/
def structsOff (content : List Char) : List (Nat × List (String × Json)) :=
  (structMatches content).filterMap fun m =>
    if is_global_scope content m.1 then
      some (m.1, [("name", Json.str m.2.2.2.asString),
        ("fields", Json.arr ((structFieldList m.2.2.1).map (fun f => Json.str f.asString)))])
    else none

def extract_structs (content : List Char) : List (List (String × Json)) :=
  (structsOff content).map (·.2)

def siMatches (content : List Char) : List (Nat × Nat × (List Char × List Char × List Char)) :=
  finditer (siMatchAt content) content.length

/-- `_extract_struct_instances`, offsets kept. -/
def structInstancesOff (content : List Char) : List (Nat × List (String × Json)) :=
  (siMatches content).filterMap fun m =>
    if is_global_scope content m.1 then
      some (m.1, [("name", Json.str m.2.2.2.1.asString),
        ("type", Json.str m.2.2.1.asString),
        ("value", Json.str (pyStrip m.2.2.2.2).asString)])
    else none

def extract_struct_instances (content : List Char) : List (List (String × Json)) :=
  (structInstancesOff content).map (·.2)

/-- The parser object: `__init__` state.  The five lists are only ever
appended to — `parse_file` never resets them. -/
structure CCodeParser where
  content : List Char
  global_vars : List (List (String × Json))
  extern_vars : List (List (String × Json))
  macros : List (List (String × Json))
  structs : List (List (String × Json))
  struct_instances : List (List (String × Json))

def CCodeParser.init : CCodeParser := ⟨[], [], [], [], [], []⟩

/-- `_create_json_output`: fixed key order, structural view of the emitted
JSON document (`json.dumps` text rendering is not modelled). -/
def create_json_output (p : CCodeParser) : Json :=
  Json.obj [
    ("global_variables", Json.arr (p.global_vars.map Json.obj)),
    ("extern_variables", Json.arr (p.extern_vars.map Json.obj)),
    ("macros", Json.arr (p.macros.map Json.obj)),
    ("structs", Json.arr (p.structs.map Json.obj)),
    ("struct_instances", Json.arr (p.struct_instances.map Json.obj))]

/-- `parse_file`, with `_read_file` modelled as receiving the file's text:
the content is replaced, then each extractor appends its results to the
object's list, and the JSON output is assembled. -/
def parse_file (file_content : List Char) (p : CCodeParser) : CCodeParser × Json :=
  let q : CCodeParser :=
    { content := file_content
      global_vars := p.global_vars ++ extract_global_variables file_content
      extern_vars := p.extern_vars ++ extract_extern_variables file_content
      macros := p.macros ++ extract_macros file_content
      structs := p.structs ++ extract_structs file_content
      struct_instances := p.struct_instances ++ extract_struct_instances file_content }
  (q, create_json_output q)


/-! ### Concrete sources used by the claims -/

/-- C1's scenario: a file-scope `int x = 5;` and a function-local `int y = 10;`. -/
def c1Src : List Char := ("int x = 5;\n\nvoid foo() \x7b\n    int y = 10;\n\x7d\n").data

/-- Two function heads whose heuristic spans overlap: `f`'s span runs to the
only newline-brace pair, past `g`'s start offset. -/
def c2Src : List Char := ("void f() \x7b\nvoid g() \x7b\n\x7d\n").data

/-- One file-scope global variable. -/
def c45Src : List Char := ("int x = 5;\n").data

/-- A `far`-qualified array global with an aggregate initializer. -/
def farSrc : List Char := ("far int arr[3] = \x7b1, 2, 3\x7d;\n").data

/-- A struct whose field block has a piece that is only a `//` comment. -/
def c7BadSrc : List Char := ("typedef struct \x7b int a; // c\n\x7d P;").data

/-- The spec's struct scenario. -/
def c7GoodSrc : List Char := ("typedef struct \x7b int a; float b; \x7d Point;").data

/-- A missing semicolon makes the global-variable match at offset 0 swallow
the following struct-instance declaration. -/
def c9BadSrc : List Char := ("int a = 5\nPoint p = \x7b1, 2\x7d;\n").data

/-- A lone struct-instance declaration, matched by both extractors. -/
def c9GoodSrc : List Char := ("Point p = \x7b1, 2\x7d;\n").data

/-- An occurrence of the two-character sequence newline-then-closing-brace
at index `i`. -/
def nlBrace (content : List Char) (i : Nat) : Prop :=
  content[i]? = some '\n' ∧ content[i + 1]? = some '\x7d'

instance (content : List Char) (i : Nat) : Decidable (nlBrace content i) := by
  unfold nlBrace; infer_instance

/-- Whether two adjacent `/` characters occur anywhere in `l`. -/
def hasDslash : List Char → Bool
  | [] => false
  | c :: r => (c == '/' && r.head? == some '/') || hasDslash r

/-- Modelled from the claim's words (C7): split the field block on `;`, trim
each piece, strip trailing `//` comments, and drop empty pieces. -/
def specStructFields (fields : List Char) : List (List Char) :=
  (((fields.splitOn ';').map pyStrip).map (fun f => pyStrip (stripLineComments f))).filter
    (fun f => !f.isEmpty)

/-! ## Helper lemmas -/

theorem takeWhile_head {p : Char → Bool} {l : List Char}
    (h : (l.takeWhile p).isEmpty = false) : ∃ c, l.head? = some c ∧ p c = true := by
  cases l with
  | nil => simp [List.takeWhile] at h
  | cons a as =>
    by_cases hp : p a
    · exact ⟨a, rfl, hp⟩
    · simp [List.takeWhile, hp] at h


theorem finditerGo_mem {α : Type} {matchAt : Nat → Option (Nat × α)} :
    ∀ {ps : List Nat} {minPos p e : Nat} {a : α},
      (p, e, a) ∈ finditerGo matchAt ps minPos → matchAt p = some (e, a) := by
  intro ps
  induction ps with
  | nil => intro minPos p e a h; simp [finditerGo] at h
  | cons q ps ih =>
    intro minPos p e a h
    rw [finditerGo] at h
    split at h
    · exact ih h
    · split at h
      · rename_i e0 a0 hm
        rcases List.mem_cons.mp h with heq | hmem
        · simp only [Prod.mk.injEq] at heq
          obtain ⟨rfl, rfl, rfl⟩ := heq
          exact hm
        · exact ih hmem
      · exact ih h

theorem finditer_mem {α : Type} {matchAt : Nat → Option (Nat × α)} {len p e : Nat} {a : α}
    (h : (p, e, a) ∈ finditer matchAt len) : matchAt p = some (e, a) :=
  finditerGo_mem h

theorem finditerGo_starts_sublist {α : Type} (matchAt : Nat → Option (Nat × α)) :
    ∀ (ps : List Nat) (minPos : Nat),
      List.Sublist ((finditerGo matchAt ps minPos).map (fun m => m.1)) ps := by
  intro ps
  induction ps with
  | nil => intro minPos; simp [finditerGo]
  | cons q ps ih =>
    intro minPos
    rw [finditerGo]
    split
    · exact (ih _).cons q
    · split
      · exact (ih _).cons₂ q
      · exact (ih _).cons q

theorem filterMap_fst_sublist {α β : Type} (g : Nat × Nat × α → Option (Nat × β))
    (hg : ∀ m x, g m = some x → x.1 = m.1) :
    ∀ (l : List (Nat × Nat × α)),
      List.Sublist ((l.filterMap g).map (fun x => x.1)) (l.map (fun m => m.1)) := by
  intro l
  induction l with
  | nil => simp
  | cons m l ih =>
    cases hx : g m with
    | some x =>
      rw [List.filterMap_cons_some hx, List.map_cons, List.map_cons, hg m x hx]
      exact ih.cons₂ m.1
    | none =>
      rw [List.filterMap_cons_none hx, List.map_cons]
      exact ih.cons m.1

/-- Offsets of every filtered finditer result list are strictly increasing. -/
theorem off_pairwise {α β : Type} (matchAt : Nat → Option (Nat × α)) (len : Nat)
    (g : Nat × Nat × α → Option (Nat × β)) (hg : ∀ m x, g m = some x → x.1 = m.1) :
    (((finditer matchAt len).filterMap g).map (fun x => x.1)).Pairwise (· ≤ ·) := by
  have h1 := filterMap_fst_sublist g hg (finditer matchAt len)
  have h2 := finditerGo_starts_sublist matchAt (List.range (len + 1)) 0
  have h3 : (((finditer matchAt len).filterMap g).map (fun x => x.1)).Pairwise (· < ·) :=
    (List.pairwise_lt_range (len + 1)).sublist (h1.trans h2)
  exact h3.imp Nat.le_of_lt

theorem is_global_scope_iff (content : List Char) (o : Nat) :
    is_global_scope content o = true ↔
      ∀ sp ∈ functionSpans content, ¬(sp.1 < o ∧ o < sp.2) := by
  unfold is_global_scope
  rw [List.all_eq_true]
  constructor
  · intro h sp hsp
    have hb := h sp hsp
    simp at hb
    omega
  · intro h sp hsp
    have hb := h sp hsp
    simp
    omega

theorem globalVarsOff_scope {content : List Char} {o : Nat} {r : List (String × Json)}
    (h : (o, r) ∈ globalVarsOff content) : is_global_scope content o = true := by
  unfold globalVarsOff at h
  obtain ⟨m, hm, hsome⟩ := List.mem_filterMap.mp h
  split at hsome
  · rename_i hcond
    simp only [Option.some.injEq, Prod.mk.injEq] at hsome
    obtain ⟨rfl, -⟩ := hsome
    exact hcond
  · exact absurd hsome (by simp)

theorem funcUnitsB_none {fuel : Nat} {l : List Char}
    (h : (funcUnitsB fuel l).2 = none) : funcUnitsB fuel l = (0, none) := by
  cases fuel with
  | zero => rfl
  | succ n =>
    by_cases hw : (l.takeWhile isWordChar).isEmpty
    · simp [funcUnitsB, hw]
    · by_cases hs : ((l.dropWhile isWordChar).takeWhile isSpaceChar).isEmpty
      · simp [funcUnitsB, hw, hs]
      · exfalso
        simp [funcUnitsB, hw, hs] at h

theorem funcUnitsB_some_word {fuel : Nat} {l : List Char} {j : Nat}
    (h : (funcUnitsB fuel l).2 = some j) : (l.takeWhile isWordChar).isEmpty = false := by
  cases fuel with
  | zero => simp [funcUnitsB] at h
  | succ n =>
    by_cases hw : (l.takeWhile isWordChar).isEmpty
    · simp [funcUnitsB, hw] at h
    · simpa using hw

theorem funcUnits_none {l : List Char} (h : (funcUnits l).2 = none) :
    funcUnits l = (0, none) := funcUnitsB_none h

theorem funcUnits_some_word {l : List Char} {j : Nat} (h : (funcUnits l).2 = some j) :
    (l.takeWhile isWordChar).isEmpty = false := funcUnitsB_some_word h

/-- A function-boundary match can only start on a word character. -/
theorem funcMatchAt_head {content : List Char} {pos : Nat} {x : Nat × Unit}
    (h : funcMatchAt content pos = some x) :
    ∃ c, (content.drop pos).head? = some c ∧ isWordChar c = true := by
  simp only [funcMatchAt] at h
  rw [Option.map_eq_some'] at h
  obtain ⟨e, he, -⟩ := h
  split at he
  · split at he
    · rename_i hword hmatch j hj
      exact takeWhile_head (funcUnits_some_word hj)
    · exact absurd he (by simp)
  · rename_i hword
    cases hu : (funcUnits (content.drop pos)).2 with
    | some j => exact takeWhile_head (funcUnits_some_word hu)
    | none =>
      have h0 := funcUnits_none hu
      rw [h0] at hword
      simp only [List.drop_zero] at hword
      exact takeWhile_head (by simpa using hword)

theorem find2From_some_spec (content : List Char) :
    ∀ (l : List Char) (i j : Nat), l = content.drop i → find2From l i = some j →
      i ≤ j ∧ nlBrace content j ∧ ∀ m, i ≤ m → m < j → ¬nlBrace content m := by
  intro l
  induction l with
  | nil => intro i j hdrop hf; simp [find2From] at hf
  | cons c rest ih =>
    intro i j hdrop hf
    have hrest : rest = content.drop (i + 1) := by
      have h1 : (content.drop i).drop 1 = content.drop (i + 1) := List.drop_drop 1 i content
      rw [← hdrop] at h1
      simpa using h1
    have hci : content[i]? = some c := by
      have := List.getElem?_drop content i 0
      rw [← hdrop] at this
      simpa using this.symm
    have hci1 : content[i + 1]? = rest.head? := by
      have := List.getElem?_drop content (i + 1) 0
      rw [← hrest] at this
      cases rest with
      | nil => simpa using this.symm
      | cons d ds => simpa using this.symm
    rw [find2From] at hf
    split at hf
    · rename_i hcond
      obtain rfl : i = j := by simpa using hf
      refine ⟨Nat.le_refl i, ⟨?_, ?_⟩, ?_⟩
      · rw [hci, hcond.1]
      · rw [hci1]; exact hcond.2
      · intro m h1 h2; omega
    · rename_i hcond
      obtain ⟨hle, hocc, hmin⟩ := ih (i + 1) j hrest hf
      refine ⟨by omega, hocc, ?_⟩
      intro m h1 h2
      rcases Nat.eq_or_lt_of_le h1 with rfl | hlt
      · intro hnl
        simp only [nlBrace] at hnl
        exact hcond ⟨Option.some.inj (hci.symm.trans hnl.1), hci1.symm.trans hnl.2⟩
      · exact hmin m hlt h2

theorem find2From_none_spec (content : List Char) :
    ∀ (l : List Char) (i : Nat), l = content.drop i → find2From l i = none →
      ∀ m, i ≤ m → ¬nlBrace content m := by
  intro l
  induction l with
  | nil =>
    intro i hdrop hf m hm hnl
    simp only [nlBrace] at hnl
    have hnone : content[m]? = none := by
      have hlen := congrArg List.length hdrop
      simp [List.length_drop] at hlen
      exact List.getElem?_eq_none (by omega)
    rw [hnone] at hnl
    exact absurd hnl.1 (by simp)
  | cons c rest ih =>
    intro i hdrop hf m hm hnl
    have hrest : rest = content.drop (i + 1) := by
      have h1 : (content.drop i).drop 1 = content.drop (i + 1) := List.drop_drop 1 i content
      rw [← hdrop] at h1
      simpa using h1
    have hci : content[i]? = some c := by
      have := List.getElem?_drop content i 0
      rw [← hdrop] at this
      simpa using this.symm
    have hci1 : content[i + 1]? = rest.head? := by
      have := List.getElem?_drop content (i + 1) 0
      rw [← hrest] at this
      cases rest with
      | nil => simpa using this.symm
      | cons d ds => simpa using this.symm
    rw [find2From] at hf
    split at hf
    · exact absurd hf (by simp)
    · rename_i hcond
      rcases Nat.eq_or_lt_of_le hm with rfl | hlt
      · simp only [nlBrace] at hnl
        exact hcond ⟨Option.some.inj (hci.symm.trans hnl.1), hci1.symm.trans hnl.2⟩
      · exact ih (i + 1) hrest hf m hlt hnl

theorem hasDslash_cons_false {c : Char} {r : List Char}
    (h : hasDslash (c :: r) = false) : hasDslash r = false := by
  simp only [hasDslash, Bool.or_eq_false_iff] at h
  exact h.2

theorem hasDslash_suffix {l2 l1 : List Char} (h : l2 <:+ l1)
    (hd : hasDslash l1 = false) : hasDslash l2 = false := by
  obtain ⟨t, rfl⟩ := h
  induction t with
  | nil => simpa using hd
  | cons c t iht => exact iht (hasDslash_cons_false hd)

theorem hasDslash_append (l2 t : List Char)
    (h : hasDslash (l2 ++ t) = false) : hasDslash l2 = false := by
  induction l2 with
  | nil => rfl
  | cons c r ih =>
    rw [show ((c :: r) ++ t) = c :: (r ++ t) from rfl,
      show hasDslash (c :: (r ++ t)) =
        ((c == '/' && (r ++ t).head? == some '/') || hasDslash (r ++ t)) from rfl,
      Bool.or_eq_false_iff] at h
    rw [show hasDslash (c :: r) =
        ((c == '/' && r.head? == some '/') || hasDslash r) from rfl,
      Bool.or_eq_false_iff]
    refine ⟨?_, ih h.2⟩
    cases r with
    | nil => simp
    | cons d ds => exact h.1

theorem stripToEnd_head {l : List Char} {d : Char}
    (h : (stripToEnd l).head? = some d) : l.head? = some d := by
  cases l with
  | nil => simp [stripToEnd] at h
  | cons c r =>
    rw [stripToEnd] at h
    split at h
    · simp at h
    · simpa using h

theorem hasDslash_stripToEnd (l : List Char) : hasDslash (stripToEnd l) = false := by
  induction l with
  | nil => rfl
  | cons c r ih =>
    rw [stripToEnd]
    split
    · rfl
    · rename_i hcond
      simp only [hasDslash, Bool.or_eq_false_iff]
      refine ⟨?_, ih⟩
      by_cases hc : c = '/'
      · subst hc
        cases hh : (stripToEnd r).head? with
        | none => simp
        | some d =>
          have hrd := stripToEnd_head hh
          by_cases hdd : d = '/'
          · subst hdd; exact absurd ⟨rfl, hrd⟩ hcond
          · simp [hdd]
      · simp [hc]

theorem hasDslash_pyStrip {l : List Char} (h : hasDslash l = false) :
    hasDslash (pyStrip l) = false := by
  have hA : hasDslash (l.dropWhile isSpaceChar) = false :=
    hasDslash_suffix (List.dropWhile_suffix isSpaceChar) h
  have hsuf : ((l.dropWhile isSpaceChar).reverse).dropWhile isSpaceChar <:+
      (l.dropWhile isSpaceChar).reverse := List.dropWhile_suffix isSpaceChar
  obtain ⟨t, ht⟩ := hsuf
  refine hasDslash_append _ t.reverse ?_
  unfold pyStrip
  rw [← List.reverse_append, ht, List.reverse_reverse]
  exact hA

theorem head?_dropWhile_false {p : Char → Bool} {l : List Char} {c : Char}
    (h : (l.dropWhile p).head? = some c) : p c = false := by
  induction l with
  | nil => simp [List.dropWhile] at h
  | cons a r ih =>
    rw [List.dropWhile_cons] at h
    split at h
    · exact ih h
    · rename_i hpa
      obtain rfl : a = c := by simpa using h
      simpa using hpa

theorem getLast?_dropWhile_ne {p : Char → Bool} {l : List Char}
    (h : l.dropWhile p ≠ []) : (l.dropWhile p).getLast? = l.getLast? := by
  induction l with
  | nil => simp [List.dropWhile] at h
  | cons a r ih =>
    rw [List.dropWhile_cons] at h ⊢
    by_cases hpa : p a
    · rw [if_pos hpa] at h ⊢
      rw [ih h]
      cases r with
      | nil => exact absurd rfl h
      | cons b bs => rw [List.getLast?_cons_cons]
    · rw [if_neg hpa]

theorem pyStrip_head {l : List Char} {c : Char} (h : (pyStrip l).head? = some c) :
    isSpaceChar c = false := by
  unfold pyStrip at h
  rw [List.head?_reverse] at h
  have hne : (((l.dropWhile isSpaceChar).reverse).dropWhile isSpaceChar) ≠ [] := by
    intro hh; rw [hh] at h; simp at h
  rw [getLast?_dropWhile_ne hne, List.getLast?_reverse] at h
  exact head?_dropWhile_false h

theorem pyStrip_getLast {l : List Char} {c : Char} (h : (pyStrip l).getLast? = some c) :
    isSpaceChar c = false := by
  unfold pyStrip at h
  rw [List.getLast?_reverse] at h
  exact head?_dropWhile_false h

theorem asString_data (l : List Char) : (l.asString).data = l := rfl

theorem foldl_fields (L : List (List Char)) :
    ∀ acc, L.foldl
        (fun acc f =>
          let f1 := pyStrip f
          if f1.isEmpty then acc else acc ++ [pyStrip (stripLineComments f1)]) acc
      = acc ++ (((L.map pyStrip).filter (fun f => !f.isEmpty)).map
          (fun f => pyStrip (stripLineComments f))) := by
  induction L with
  | nil => intro acc; simp
  | cons f L ih =>
    intro acc
    rw [List.foldl_cons, ih]
    by_cases hf : (pyStrip f).isEmpty
    · simp [hf]
    · simp [hf]

/-- The source's per-field loop drops a piece that trims to empty before
comment stripping happens; comment stripping applies only to kept pieces. -/
theorem structFieldList_eq (fields : List Char) :
    structFieldList fields =
      (((fields.splitOn ';').map pyStrip).filter (fun f => !f.isEmpty)).map
        (fun f => pyStrip (stripLineComments f)) := by
  unfold structFieldList
  rw [foldl_fields]
  simp

theorem mem_extract_gv {content : List Char} {r : List (String × Json)}
    (h : r ∈ extract_global_variables content) : ∃ caps, r = gvRecord caps := by
  unfold extract_global_variables globalVarsOff at h
  obtain ⟨a, ha, hfa⟩ := List.mem_map.mp h
  obtain ⟨m, hm, hsome⟩ := List.mem_filterMap.mp ha
  split at hsome
  · simp only [Option.some.injEq] at hsome
    exact ⟨m.2.2, by rw [← hfa, ← hsome]⟩
  · exact absurd hsome (by simp)

theorem mem_extract_ex {content : List Char} {r : List (String × Json)}
    (h : r ∈ extract_extern_variables content) :
    ∃ ty nm : List Char,
      r = [("name", Json.str nm.asString), ("type", Json.str ty.asString)] := by
  unfold extract_extern_variables externVarsOff at h
  obtain ⟨a, ha, hfa⟩ := List.mem_map.mp h
  obtain ⟨m, hm, hsome⟩ := List.mem_filterMap.mp ha
  split at hsome
  · simp only [Option.some.injEq] at hsome
    exact ⟨m.2.2.1, m.2.2.2, by rw [← hfa, ← hsome]⟩
  · exact absurd hsome (by simp)

theorem mem_extract_macros {content : List Char} {r : List (String × Json)}
    (h : r ∈ extract_macros content) :
    ∃ nm v : List Char,
      r = [("name", Json.str nm.asString),
        ("value", Json.str ((pyStrip (stripToEnd v)).asString))] := by
  unfold extract_macros macrosOff at h
  obtain ⟨a, ha, hfa⟩ := List.mem_map.mp h
  obtain ⟨m, hm, hsome⟩ := List.mem_filterMap.mp ha
  split at hsome
  · simp only [Option.some.injEq] at hsome
    exact ⟨m.2.2.1, m.2.2.2, by rw [← hfa, ← hsome]⟩
  · exact absurd hsome (by simp)

theorem mem_extract_structs {content : List Char} {r : List (String × Json)}
    (h : r ∈ extract_structs content) :
    ∃ fl nm : List Char,
      r = [("name", Json.str nm.asString),
        ("fields", Json.arr ((structFieldList fl).map (fun f => Json.str f.asString)))] := by
  unfold extract_structs structsOff at h
  obtain ⟨a, ha, hfa⟩ := List.mem_map.mp h
  obtain ⟨m, hm, hsome⟩ := List.mem_filterMap.mp ha
  split at hsome
  · simp only [Option.some.injEq] at hsome
    exact ⟨m.2.2.1, m.2.2.2, by rw [← hfa, ← hsome]⟩
  · exact absurd hsome (by simp)

theorem mem_extract_si {content : List Char} {r : List (String × Json)}
    (h : r ∈ extract_struct_instances content) :
    ∃ ty nm v : List Char,
      r = [("name", Json.str nm.asString), ("type", Json.str ty.asString),
        ("value", Json.str ((pyStrip v).asString))] := by
  unfold extract_struct_instances structInstancesOff at h
  obtain ⟨a, ha, hfa⟩ := List.mem_map.mp h
  obtain ⟨m, hm, hsome⟩ := List.mem_filterMap.mp ha
  split at hsome
  · simp only [Option.some.injEq] at hsome
    exact ⟨m.2.2.1, m.2.2.2.1, m.2.2.2.2, by rw [← hfa, ← hsome]⟩
  · exact absurd hsome (by simp)

/-! ## The claims -/

/-- C1: a declaration matching the global-variable shape whose match start
offset lies strictly inside a detected function span is never included in
`global_variables`; in particular a source with `int x = 5;` at file scope
and `int y = 10;` inside a function body yields exactly the record
`{"name": "x", "type": "int", "value": "5"}` and no record for `y`. -/
theorem C1_local_declarations_excluded :
    (∀ (content : List Char) (o : Nat) (r : List (String × Json)) (a b : Nat),
        (o, r) ∈ globalVarsOff content → (a, b) ∈ functionSpans content →
        ¬(a < o ∧ o < b)) ∧
    extract_global_variables c1Src =
      [[("name", Json.str "x"), ("type", Json.str "int"), ("value", Json.str "5")]] := by
  constructor
  · intro content o r a b hmem hspan
    exact (is_global_scope_iff content o).mp (globalVarsOff_scope hmem) (a, b) hspan
  · rfl

/-- C2 (amended): the scope classifier returns `true` iff no span has
`start < o < end`; consequently an offset equal to some span's start or end
is classified global provided it does not lie strictly inside any other
span (with overlapping spans the unconditional boundary rule fails, see the
counterexample). -/
theorem C2_scope_classifier_boundary :
    (∀ (content : List Char) (o : Nat),
        is_global_scope content o = true ↔
          ∀ sp ∈ functionSpans content, ¬(sp.1 < o ∧ o < sp.2)) ∧
    (∀ (content : List Char) (o : Nat) (sp : Nat × Nat),
        sp ∈ functionSpans content → (o = sp.1 ∨ o = sp.2) →
        (∀ q ∈ functionSpans content, ¬(q.1 < o ∧ o < q.2)) →
        is_global_scope content o = true) := by
  refine ⟨is_global_scope_iff, ?_⟩
  intro content o sp hsp hor hall
  exact (is_global_scope_iff content o).mpr hall

/-- C2's unconditional boundary rule is false: in `c2Src` the offset 11 is
exactly the start of the detected span `(11, 21)` and yet the classifier
returns local, because 11 lies strictly inside the overlapping span
`(0, 21)`. -/
theorem C2_counterexample_boundary_inside :
    functionSpans c2Src = [(0, 21), (11, 21)] ∧
    (11, 21) ∈ functionSpans c2Src ∧
    is_global_scope c2Src 11 = false := ⟨rfl, by decide, rfl⟩

/-- C3: every function span `(s, e)` ends at the offset of the next
occurrence of the two-character sequence newline + closing brace located
after `s`, and at the document length when no such occurrence exists. -/
theorem C3_span_end_next_nl_brace (content : List Char) (s e : Nat)
    (h : (s, e) ∈ functionSpans content) :
    (∃ i, s < i ∧ nlBrace content i ∧ e = i ∧
        ∀ j, s < j → j < i → ¬nlBrace content j) ∨
    (e = content.length ∧ ∀ j, s < j → ¬nlBrace content j) := by
  unfold functionSpans at h
  obtain ⟨m, hm, heq⟩ := List.mem_map.mp h
  obtain ⟨p, me, mu⟩ := m
  simp only [Prod.mk.injEq] at heq
  obtain ⟨h1, h2⟩ := heq
  subst h1
  subst h2
  have hmm : funcMatchAt content p = some (me, mu) := by
    unfold funcMatches finditer at hm
    exact finditerGo_mem hm
  obtain ⟨c, hc, hw⟩ := funcMatchAt_head hmm
  have hcs : content[p]? = some c := by
    cases hdp : content.drop p with
    | nil => rw [hdp] at hc; simp at hc
    | cons d ds =>
      rw [hdp] at hc
      have h0 := List.getElem?_drop content p 0
      rw [hdp] at h0
      have hpd : content[p]? = some d := by simpa using h0.symm
      have hcd : d = c := by simpa using hc
      rw [hpd, hcd]
  have hcnl : c ≠ '\n' := by
    intro hcc
    rw [hcc] at hw
    exact absurd hw (by decide)
  cases hf : find2 content p with
  | some i =>
    unfold find2 at hf
    obtain ⟨hle, hocc, hmin⟩ := find2From_some_spec content (content.drop p) p i rfl hf
    left
    have hne : p ≠ i := by
      intro hpi
      subst hpi
      simp only [nlBrace] at hocc
      rw [hcs] at hocc
      exact hcnl (Option.some.inj hocc.1)
    refine ⟨i, by omega, hocc, ?_, fun j hj1 hj2 => hmin j (by omega) hj2⟩
    simp [spanEnd, find2, hf]
  | none =>
    unfold find2 at hf
    right
    refine ⟨?_, fun j hj => find2From_none_spec content (content.drop p) p rfl hf j (by omega)⟩
    simp [spanEnd, find2, hf]

theorem C3_span_end_next_nl_brace_witness :
    (0, 21) ∈ functionSpans c2Src ∧
    ((∃ i, 0 < i ∧ nlBrace c2Src i ∧ 21 = i ∧
        ∀ j, 0 < j → j < i → ¬nlBrace c2Src j) ∨
     (21 = c2Src.length ∧ ∀ j, 0 < j → ¬nlBrace c2Src j)) :=
  ⟨by decide, C3_span_end_next_nl_brace c2Src 0 21 (by decide)⟩

/-- C4's claimed statelessness is false: `parse_file` never resets the
accumulator lists, so a second call on the same parser over the same file
returns the accumulated sequence, not the first call's. -/
theorem C4_counterexample_accumulation :
    (parse_file c45Src CCodeParser.init).1.global_vars =
      [[("name", Json.str "x"), ("type", Json.str "int"), ("value", Json.str "5")]] ∧
    (parse_file c45Src (parse_file c45Src CCodeParser.init).1).1.global_vars =
      [[("name", Json.str "x"), ("type", Json.str "int"), ("value", Json.str "5")],
       [("name", Json.str "x"), ("type", Json.str "int"), ("value", Json.str "5")]] ∧
    (parse_file c45Src (parse_file c45Src CCodeParser.init).1).1.global_vars ≠
      (parse_file c45Src CCodeParser.init).1.global_vars := by
  refine ⟨rfl, rfl, ?_⟩
  intro h
  have e2 : (parse_file c45Src (parse_file c45Src CCodeParser.init).1).1.global_vars.length
      = 2 := by decide
  have e1 : (parse_file c45Src CCodeParser.init).1.global_vars.length = 1 := by decide
  rw [h] at e2
  exact absurd (e1.symm.trans e2) (by decide)

/-- C4 (amended): parser state accumulates across calls — each `parse_file`
call appends that file's extraction results to the object's lists, so the
second of two successive calls on the same parser over the same content
returns each sequence concatenated with itself. -/
theorem C4_amended_parse_accumulates (c : List Char) :
    ((parse_file c CCodeParser.init).1.global_vars = extract_global_variables c ∧
     (parse_file c (parse_file c CCodeParser.init).1).1.global_vars =
        extract_global_variables c ++ extract_global_variables c) ∧
    ((parse_file c CCodeParser.init).1.extern_vars = extract_extern_variables c ∧
     (parse_file c (parse_file c CCodeParser.init).1).1.extern_vars =
        extract_extern_variables c ++ extract_extern_variables c) ∧
    ((parse_file c CCodeParser.init).1.macros = extract_macros c ∧
     (parse_file c (parse_file c CCodeParser.init).1).1.macros =
        extract_macros c ++ extract_macros c) ∧
    ((parse_file c CCodeParser.init).1.structs = extract_structs c ∧
     (parse_file c (parse_file c CCodeParser.init).1).1.structs =
        extract_structs c ++ extract_structs c) ∧
    ((parse_file c CCodeParser.init).1.struct_instances = extract_struct_instances c ∧
     (parse_file c (parse_file c CCodeParser.init).1).1.struct_instances =
        extract_struct_instances c ++ extract_struct_instances c) := by
  refine ⟨⟨?_, ?_⟩, ⟨?_, ?_⟩, ⟨?_, ?_⟩, ⟨?_, ?_⟩, ⟨?_, ?_⟩⟩ <;>
    simp [parse_file, CCodeParser.init]

/-- C5's field name is wrong: the emitted global-variable record keys are
`name`, `type`, `value` — there is no field named `initializer`. -/
theorem C5_counterexample_value_key :
    extract_global_variables c45Src =
      [[("name", Json.str "x"), ("type", Json.str "int"), ("value", Json.str "5")]] ∧
    "initializer" ∉
      ([("name", Json.str "x"), ("type", Json.str "int"),
        ("value", Json.str "5")].map Prod.fst) := ⟨rfl, by decide⟩

/-- C5 (amended): each emitted record carries exactly the keys of its
category — `name, type, value` for global variables and struct instances
(the trimmed initializer is stored under `value`, not `initializer`),
`name, type` for externs, `name, value` for macros, `name, fields` for
structs; the `far ` prefix on `type` and the verbatim bracketed array
suffix on `name` behave as claimed. -/
theorem C5_amended_record_fields :
    (∀ (content : List Char) (r : List (String × Json)),
        r ∈ extract_global_variables content →
        r.map Prod.fst = ["name", "type", "value"]) ∧
    (∀ (content : List Char) (r : List (String × Json)),
        r ∈ extract_extern_variables content → r.map Prod.fst = ["name", "type"]) ∧
    (∀ (content : List Char) (r : List (String × Json)),
        r ∈ extract_macros content → r.map Prod.fst = ["name", "value"]) ∧
    (∀ (content : List Char) (r : List (String × Json)),
        r ∈ extract_structs content → r.map Prod.fst = ["name", "fields"]) ∧
    (∀ (content : List Char) (r : List (String × Json)),
        r ∈ extract_struct_instances content →
        r.map Prod.fst = ["name", "type", "value"]) ∧
    extract_global_variables farSrc =
      [[("name", Json.str "arr[3]"), ("type", Json.str "far int"),
        ("value", Json.str ("\x7b1, 2, 3\x7d"))]] := by
  refine ⟨?_, ?_, ?_, ?_, ?_, rfl⟩
  · intro content r h
    obtain ⟨caps, rfl⟩ := mem_extract_gv h
    rfl
  · intro content r h
    obtain ⟨ty, nm, rfl⟩ := mem_extract_ex h
    rfl
  · intro content r h
    obtain ⟨nm, v, rfl⟩ := mem_extract_macros h
    rfl
  · intro content r h
    obtain ⟨fl, nm, rfl⟩ := mem_extract_structs h
    rfl
  · intro content r h
    obtain ⟨ty, nm, v, rfl⟩ := mem_extract_si h
    rfl

/-- C6: every extracted macro value has its trailing `//`-style comment
stripped (no `//` remains in it) and is trimmed (its first and last
characters are not whitespace); in particular `#define MAX 100 // limit` at
file scope yields the single record `{"name": "MAX", "value": "100"}`. -/
theorem C6_macro_value_stripped :
    (∀ (content : List Char) (nm v : String),
        [("name", Json.str nm), ("value", Json.str v)] ∈ extract_macros content →
        hasDslash v.data = false ∧
        (∀ c, v.data.head? = some c → isSpaceChar c = false) ∧
        (∀ c, v.data.getLast? = some c → isSpaceChar c = false)) ∧
    extract_macros (("#define MAX 100 // limit").data) =
      [[("name", Json.str "MAX"), ("value", Json.str "100")]] := by
  constructor
  · intro content nm v hmem
    obtain ⟨nm0, v0, heq⟩ := mem_extract_macros hmem
    have hv : Json.str v = Json.str ((pyStrip (stripToEnd v0)).asString) := by
      have h2 := congrArg (fun l => (l.getD 1 ("", Json.str "")).2) heq
      simpa using h2
    have hv2 : v = (pyStrip (stripToEnd v0)).asString := by simpa using hv
    rw [hv2, asString_data]
    exact ⟨hasDslash_pyStrip (hasDslash_stripToEnd v0),
      fun c hc => pyStrip_head hc, fun c hc => pyStrip_getLast hc⟩
  · rfl

/-- C7's pipeline order is wrong on comment-only pieces: in the source the
empty-piece check runs before comment stripping, so a piece that is only a
`//` comment is kept and becomes an empty string in `fields` — the claimed
pipeline (split, trim, strip comments, drop empty) would drop it. -/
theorem C7_counterexample_comment_only_piece :
    extract_structs c7BadSrc =
      [[("name", Json.str "P"),
        ("fields", Json.arr [Json.str "int a", Json.str ""])]] ∧
    (specStructFields ((" int a; // c\n").data)).map List.asString = ["int a"] ∧
    [Json.str "int a", Json.str ""] ≠ [Json.str "int a"] := by
  refine ⟨rfl, rfl, ?_⟩
  intro h
  have hlen := congrArg List.length h
  simp at hlen

/-- C7 (amended): `fields` is produced by splitting the block on `;`,
trimming each piece, dropping the pieces that are empty after that trim,
and only then stripping `//` comments (and re-trimming) on the kept pieces;
the spec's scenario holds. -/
theorem C7_amended_fields_pipeline :
    (∀ fields : List Char, structFieldList fields =
        (((fields.splitOn ';').map pyStrip).filter (fun f => !f.isEmpty)).map
          (fun f => pyStrip (stripLineComments f))) ∧
    extract_structs c7GoodSrc =
      [[("name", Json.str "Point"),
        ("fields", Json.arr [Json.str "int a", Json.str "float b"])]] :=
  ⟨structFieldList_eq, rfl⟩

/-- C8: within each of the five result sequences, records appear in
increasing order of their match's start offset. -/
theorem C8_sequences_ordered_by_offset (content : List Char) :
    ((globalVarsOff content).map (fun x => x.1)).Pairwise (· ≤ ·) ∧
    ((externVarsOff content).map (fun x => x.1)).Pairwise (· ≤ ·) ∧
    ((macrosOff content).map (fun x => x.1)).Pairwise (· ≤ ·) ∧
    ((structsOff content).map (fun x => x.1)).Pairwise (· ≤ ·) ∧
    ((structInstancesOff content).map (fun x => x.1)).Pairwise (· ≤ ·) := by
  refine ⟨?_, ?_, ?_, ?_, ?_⟩
  · unfold globalVarsOff gvMatches
    refine off_pairwise _ _ _ ?_
    intro m x hx
    split at hx
    · simp only [Option.some.injEq] at hx
      rw [← hx]
    · simp at hx
  · unfold externVarsOff exMatches
    refine off_pairwise _ _ _ ?_
    intro m x hx
    split at hx
    · simp only [Option.some.injEq] at hx
      rw [← hx]
    · simp at hx
  · unfold macrosOff macroMatches
    refine off_pairwise _ _ _ ?_
    intro m x hx
    split at hx
    · simp only [Option.some.injEq] at hx
      rw [← hx]
    · simp at hx
  · unfold structsOff structMatches
    refine off_pairwise _ _ _ ?_
    intro m x hx
    split at hx
    · simp only [Option.some.injEq] at hx
      rw [← hx]
    · simp at hx
  · unfold structInstancesOff siMatches
    refine off_pairwise _ _ _ ?_
    intro m x hx
    split at hx
    · simp only [Option.some.injEq] at hx
      rw [← hx]
    · simp at hx

/-- C9's universal duplication claim is false: in `c9BadSrc` the file-scope
declaration `Point p = {1, 2};` produces its struct_instances record, yet
global_variables holds only the record for `a`, whose match (missing its
semicolon) swallowed the `p` declaration's offset — no `p` record exists
there. -/
theorem C9_counterexample_swallowed_instance :
    extract_struct_instances c9BadSrc =
      [[("name", Json.str "p"), ("type", Json.str "Point"),
        ("value", Json.str ("\x7b1, 2\x7d"))]] ∧
    extract_global_variables c9BadSrc =
      [[("name", Json.str "a"), ("type", Json.str "int"),
        ("value", Json.str ("5\nPoint p = \x7b1, 2\x7d"))]] ∧
    [("name", Json.str "p"), ("type", Json.str "Point"),
        ("value", Json.str ("\x7b1, 2\x7d"))] ∉ extract_global_variables c9BadSrc := by
  refine ⟨rfl, rfl, ?_⟩
  intro h
  rw [show extract_global_variables c9BadSrc =
      [[("name", Json.str "a"), ("type", Json.str "int"),
        ("value", Json.str ("5\nPoint p = \x7b1, 2\x7d"))]] from rfl] at h
  have h2 := List.mem_singleton.mp h
  have h3 := congrArg (fun l => (l.getD 0 ("", Json.str "")).2) h2
  simp only [List.getD_cons_zero] at h3
  have h4 : ("p" : String) = "a" := by
    have h5 : Json.str "p" = Json.str "a" := h3
    injection h5
  exact absurd h4 (by decide)

/-- C9 (amended): a file-scope `TypeName instanceName = { ... };`
declaration matches both extractors' shapes; it yields a struct_instances
record, and also a global_variables record whenever no earlier
global-variable match has consumed its offset — as when it is the whole
file, where the identical record appears in both sequences. -/
theorem C9_amended_both_sequences :
    extract_global_variables c9GoodSrc =
      [[("name", Json.str "p"), ("type", Json.str "Point"),
        ("value", Json.str ("\x7b1, 2\x7d"))]] ∧
    extract_struct_instances c9GoodSrc =
      [[("name", Json.str "p"), ("type", Json.str "Point"),
        ("value", Json.str ("\x7b1, 2\x7d"))]] := ⟨rfl, rfl⟩

/-- C10: the extern extractor only matches when the `extern` keyword begins
at column 0 of a line (offset 0 or right after a newline); an extern
declaration with leading whitespace silently yields no record, while the
global-variable shape does permit leading whitespace. -/
theorem C10_extern_column_zero :
    (∀ (content : List Char) (s e : Nat) (caps : List Char × List Char),
        (s, e, caps) ∈ exMatches content → s = 0 ∨ content[s - 1]? = some '\n') ∧
    extract_extern_variables (("  extern int counter;\n").data) = [] ∧
    extract_global_variables (("  int x = 5;\n").data) =
      [[("name", Json.str "x"), ("type", Json.str "int"), ("value", Json.str "5")]] := by
  refine ⟨?_, rfl, rfl⟩
  intro content s e caps hmem
  unfold exMatches finditer at hmem
  have hma := finditerGo_mem hmem
  unfold exMatchAt at hma
  by_cases hb : isBol content s
  · unfold isBol at hb
    simpa using hb
  · rw [if_neg hb] at hma
    exact absurd hma (by simp)

end CProc
